import Mathlib

/-!
Shallow embedding of the multi-file indexing and cross-reference resolution
engine of io_unity (src/io_unity/src/unity_asset_view.rs), together with
proofs about its ingestion (read_dir) and lookup operations.

Modelling conventions:
- i64 counters and identifiers are modelled as Int (the counters start at 0
  and are only ever incremented by 1, so i64 overflow is unreachable for any
  realistic input and is not modelled);
- HashMap / BTreeMap are modelled as association lists with insert-replaces
  and first-match lookup semantics (listInsert / listLookup), which is
  observationally equivalent to the Rust maps for get/insert;
- anyhow errors are modelled as Except Unit: only presence of an error
  matters to the engine's control flow;
- read_dir takes &mut self in Rust and keeps all mutations performed before
  an error propagates, so it is modelled as returning the final state paired
  with the Except result;
- the filesystem and the external parsers (UnityFS::read, get_file_by_path,
  SerializedFile::read) are modelled by their abstract outcomes: a directory
  is a list of DirEntry values, a parsed archive is a UnityFS value whose
  cabs list gives, for every cab path in iteration order, either an
  extraction failure, a parse failure, or the parsed table data.
-/

namespace IoUnity

/-- Association-list model of Rust HashMap / BTreeMap `get`: first match. -/
def listLookup {α β : Type} [DecidableEq α] : List (α × β) → α → Option β
  | [], _ => none
  | (k, v) :: t, k' => if k' = k then some v else listLookup t k'

/-- Association-list model of Rust HashMap / BTreeMap `insert`: replaces the
value when the key is present, otherwise appends the binding. -/
def listInsert {α β : Type} [DecidableEq α] : List (α × β) → α → β → List (α × β)
  | [], k, v => [(k, v)]
  | (k0, v0) :: t, k, v => if k0 = k then (k, v) :: t else (k0, v0) :: listInsert t k v

/-- Modelled from the spec: the Typed Pointer data type
(src/io_unity/src/classes/p_ptr.rs is not under src/). Per spec §3 a Typed
Pointer carries the owning Table identifier (absolute, already resolved
against the engine) and an optional target numeric object identifier. -/
structure PPtr where
  serialized_file_id : Int
  path_id : Option Int
deriving DecidableEq

/-- Modelled from the spec: accessor for the pointer's optional target
identifier (PPtr::get_path_id in the missing p_ptr.rs). -/
def PPtr.get_path_id (p : PPtr) : Option Int := p.path_id

/-- Modelled from the spec: accessor for the pointer's owning table
identifier (PPtr::get_serialized_file_id in the missing p_ptr.rs). -/
def PPtr.get_serialized_file_id (p : PPtr) : Int := p.serialized_file_id

/-- Modelled from the spec: a decoded object (type_tree.rs is not under
src/). It records the identifier of the table it was decoded from (spec §4.1
LookupArchiveByObject keys on it), an abstract payload distinguishing
distinct decoded values, and the result of the manifest field navigation
`get_string_key_map_by_path "/Base/m_Container/Array"` collapsed to its only
observed shape: the ordered (name, decoded "/Base/asset" pointer) entries.
An entry whose asset field fails to decode is `none`. -/
structure TypeTreeObject where
  serialized_file_id : Int
  data : Nat
  container_array : Option (List (String × Option PPtr))
deriving DecidableEq

/-- Outcome of decoding the object stored under one path id of a table:
either a structural decode failure or the decoded object. -/
inductive ObjResult where
  | fail
  | ok (o : TypeTreeObject)
deriving DecidableEq

/-- Modelled from the spec: the parsed content of one virtual file
(serialized_file.rs is not under src/): the table's objects addressable by
numeric identifier (spec §6 Parsed Table `get_object`). -/
structure TableData where
  objects : List (Int × ObjResult)
deriving DecidableEq

/-- Modelled from the spec: a Parsed Table as held by the engine: the table
data together with the identifier assigned at parse time
(SerializedFile::read receives the assigned id). -/
structure SerializedFile where
  id : Int
  data : TableData
deriving DecidableEq

/-- Modelled from the spec: SerializedFile::get_tt_object_by_path_id
(serialized_file.rs is not under src/): looking up a numeric identifier
yields Ok(None) when absent, Err on a structural decode failure, and
Ok(Some(object)) otherwise. -/
def SerializedFile.get_tt_object_by_path_id (sf : SerializedFile) (path_id : Int) :
    Except Unit (Option TypeTreeObject) :=
  match listLookup sf.data.objects path_id with
  | none => Except.ok none
  | some ObjResult.fail => Except.error ()
  | some (ObjResult.ok o) => Except.ok (some o)

/-- Abstract outcome of extracting and parsing one cab (virtual file) of an
archive: `get_file_by_path` may fail, then SerializedFile::read may fail,
otherwise the table data is produced. -/
inductive CabContent where
  | extractErr
  | parseErr
  | table (d : TableData)
deriving DecidableEq

/-- Modelled from the spec: an opened archive (untityfs.rs is not under
src/): for every cab path, in the order `get_cab_path` yields them, the
outcome of extracting and parsing that virtual file. -/
structure UnityFS where
  cabs : List (String × CabContent)
deriving DecidableEq

/-- Abstract outcome of opening and parsing one regular file of the
directory: OpenOptions::open may fail, UnityFS::read may fail, otherwise an
archive is produced. -/
inductive FileContent where
  | openErr
  | fsParseErr
  | ok (fs : UnityFS)
deriving DecidableEq

/-- One entry of the directory iteration of read_dir: the entry itself may
be an Err, its file type may be undeterminable, it may not be a regular
file, or it is a regular file with the given content. -/
inductive DirEntry where
  | errEntry
  | noFileType
  | notFile
  | file (c : FileContent)
deriving DecidableEq

/-- The engine state: the eight fields of struct UnityAssetViewer
(unity_asset_view.rs lines 10-19). -/
structure UnityAssetViewer where
  cab_maps : List (String × Int)
  serialized_file_map : List (Int × SerializedFile)
  serialized_file_count : Int
  unity_fs_map : List (Int × UnityFS)
  unity_fs_count : Int
  serialized_file_to_unity_fs_map : List (Int × Int)
  container_maps : List (String × List (Int × PPtr))
  container_name_maps : List (Int × List (Int × String))
deriving DecidableEq

/-- UnityAssetViewer::new (lines 22-33): every map empty, counters 0. -/
def UnityAssetViewer.new : UnityAssetViewer :=
  { cab_maps := []
    serialized_file_map := []
    serialized_file_count := 0
    unity_fs_map := []
    unity_fs_count := 0
    serialized_file_to_unity_fs_map := []
    container_maps := []
    container_name_maps := [] }

/-- The push into container_maps (lines 75-80): push onto the existing
candidate list when the name is present, otherwise insert a singleton. -/
def containerPush (m : List (String × List (Int × PPtr))) (name : String)
    (x : Int × PPtr) : List (String × List (Int × PPtr)) :=
  match listLookup m name with
  | some objs => listInsert m name (objs ++ [x])
  | none => listInsert m name [x]

/-- The body of the manifest loop (lines 66-82) for one (name, asset_info)
entry, acting on the (viewer, name_map) accumulator: when the asset field
decoded (entry.2 = some pptr), insert target-id → name into name_map if the
target id is present, and push the (table id, pptr) candidate under the
name; otherwise nothing happens. -/
def processContainerEntry (sid : Int) (acc : UnityAssetViewer × List (Int × String))
    (entry : String × Option PPtr) : UnityAssetViewer × List (Int × String) :=
  match entry.2 with
  | some pptr =>
    let nm := match pptr.get_path_id with
      | some path_id => listInsert acc.2 path_id entry.1
      | none => acc.2
    ({ acc.1 with
        container_maps := containerPush acc.1.container_maps entry.1 (sid, pptr) }, nm)
  | none => acc

/-- Manifest extraction for one freshly parsed table (lines 59-86): when
object #1 is present and carries the container array, fold the entries and
record the reverse name map under the table id; otherwise (object #1
absent, its lookup failing, or the array field missing) do nothing. -/
def processManifest (v : UnityAssetViewer) (sid : Int) (sf : SerializedFile) :
    UnityAssetViewer :=
  match sf.get_tt_object_by_path_id 1 with
  | Except.ok (some asset_bundle) =>
    match asset_bundle.container_array with
    | some containers =>
      let r := containers.foldl (processContainerEntry sid) (v, [])
      { r.1 with container_name_maps := listInsert r.1.container_name_maps sid r.2 }
    | none => v
  | _ => v

/-- Processing of one cab path of an archive (lines 49-93 loop body):
extraction failure propagates before the table id is taken; a parse failure
propagates after the count was already incremented; on success the table id
is assigned, the manifest is processed, and the three registration maps are
updated. -/
def processCab (v : UnityAssetViewer) (unity_fs_id : Int)
    (cab : String × CabContent) : UnityAssetViewer × Except Unit Unit :=
  match cab.2 with
  | CabContent.extractErr => (v, Except.error ())
  | CabContent.parseErr =>
    ({ v with serialized_file_count := v.serialized_file_count + 1 }, Except.error ())
  | CabContent.table d =>
    let serialized_file_id := v.serialized_file_count
    let v1 := { v with serialized_file_count := serialized_file_id + 1 }
    let serialized_file : SerializedFile := { id := serialized_file_id, data := d }
    let v2 := processManifest v1 serialized_file_id serialized_file
    ({ v2 with
        serialized_file_map :=
          listInsert v2.serialized_file_map serialized_file_id serialized_file
        serialized_file_to_unity_fs_map :=
          listInsert v2.serialized_file_to_unity_fs_map serialized_file_id unity_fs_id
        cab_maps := listInsert v2.cab_maps cab.1 serialized_file_id },
      Except.ok ())

/-- The cab loop (lines 49-93): process the cabs in order; an error aborts
the rest of the loop while keeping the state mutated so far. -/
def processCabs (v : UnityAssetViewer) (unity_fs_id : Int) :
    List (String × CabContent) → UnityAssetViewer × Except Unit Unit
  | [] => (v, Except.ok ())
  | cab :: rest =>
    match processCab v unity_fs_id cab with
    | (v1, Except.ok ()) => processCabs v1 unity_fs_id rest
    | (v1, Except.error e) => (v1, Except.error e)

/-- Processing of one directory entry (lines 37-100 loop body): entries
that error, have no determinable file type, or are not regular files are
skipped; open/parse failures of a regular file propagate before the archive
id is taken; otherwise the archive id is assigned, the cabs are processed,
and on success the archive is stored in unity_fs_map (line 95) - an error
inside the cab loop skips that insertion. -/
def processEntry (v : UnityAssetViewer) : DirEntry → UnityAssetViewer × Except Unit Unit
  | DirEntry.errEntry => (v, Except.ok ())
  | DirEntry.noFileType => (v, Except.ok ())
  | DirEntry.notFile => (v, Except.ok ())
  | DirEntry.file FileContent.openErr => (v, Except.error ())
  | DirEntry.file FileContent.fsParseErr => (v, Except.error ())
  | DirEntry.file (FileContent.ok fs) =>
    let unity_fs_id := v.unity_fs_count
    let v1 := { v with unity_fs_count := unity_fs_id + 1 }
    match processCabs v1 unity_fs_id fs.cabs with
    | (v2, Except.ok ()) =>
      ({ v2 with unity_fs_map := listInsert v2.unity_fs_map unity_fs_id fs },
        Except.ok ())
    | (v2, Except.error e) => (v2, Except.error e)

/-- UnityAssetViewer::read_dir (lines 35-103) over an already-listed
directory: process the entries in order; a propagating error aborts the
remaining entries while keeping the state mutated so far. -/
def UnityAssetViewer.read_dir (v : UnityAssetViewer) :
    List DirEntry → UnityAssetViewer × Except Unit Unit
  | [] => (v, Except.ok ())
  | e :: rest =>
    match processEntry v e with
    | (v1, Except.ok ()) => UnityAssetViewer.read_dir v1 rest
    | (v1, Except.error e') => (v1, Except.error e')

/-- UnityAssetViewer::get_serialized_file_by_path (lines 105-112). -/
def UnityAssetViewer.get_serialized_file_by_path (v : UnityAssetViewer)
    (path : String) : Option SerializedFile :=
  match listLookup v.cab_maps path with
  | some serialized_file_id => listLookup v.serialized_file_map serialized_file_id
  | none => none

/-- UnityAssetViewer::get_unity_fs_by_cab_path (lines 114-124). -/
def UnityAssetViewer.get_unity_fs_by_cab_path (v : UnityAssetViewer)
    (path : String) : Option UnityFS :=
  match listLookup v.cab_maps path with
  | some serialized_file_id =>
    match listLookup v.serialized_file_to_unity_fs_map serialized_file_id with
    | some unity_fs_id => listLookup v.unity_fs_map unity_fs_id
    | none => none
  | none => none

/-- UnityAssetViewer::get_unity_fs_by_pptr (lines 126-138). -/
def UnityAssetViewer.get_unity_fs_by_pptr (v : UnityAssetViewer) (pptr : PPtr) :
    Option UnityFS :=
  match listLookup v.serialized_file_to_unity_fs_map pptr.get_serialized_file_id with
  | some unity_fs_id => listLookup v.unity_fs_map unity_fs_id
  | none => none

/-- UnityAssetViewer::get_unity_fs_by_type_tree_object (lines 140-153). -/
def UnityAssetViewer.get_unity_fs_by_type_tree_object (v : UnityAssetViewer)
    (type_tree_object : TypeTreeObject) : Option UnityFS :=
  match listLookup v.serialized_file_to_unity_fs_map type_tree_object.serialized_file_id with
  | some unity_fs_id => listLookup v.unity_fs_map unity_fs_id
  | none => none

/-- UnityAssetViewer::get_container_name_by_path_id (lines 155-166). -/
def UnityAssetViewer.get_container_name_by_path_id (v : UnityAssetViewer)
    (cab_name : String) (path_id : Int) : Option String :=
  match listLookup v.cab_maps cab_name with
  | some serialized_file_id =>
    match listLookup v.container_name_maps serialized_file_id with
    | some name_map => listLookup name_map path_id
    | none => none
  | none => none

/-- UnityAssetViewer::get_container_name_by_pptr (lines 168-176). -/
def UnityAssetViewer.get_container_name_by_pptr (v : UnityAssetViewer)
    (pptr : PPtr) : Option String :=
  match listLookup v.container_name_maps pptr.get_serialized_file_id with
  | some name_map =>
    match pptr.get_path_id with
    | some path_id => listLookup name_map path_id
    | none => none
  | none => none

/-- Modelled from the spec: PPtr::get_type_tree_object (p_ptr.rs is not
under src/). Spec §4.2: an absent target identifier resolves to nothing;
a target local to the owner table resolves directly against it; otherwise
the engine context is consulted to locate the owning table, and without a
located table the result is absent. Decode failures propagate. -/
def PPtr.get_type_tree_object (p : PPtr) (owner : SerializedFile)
    (viewer : Option UnityAssetViewer) : Except Unit (Option TypeTreeObject) :=
  match p.get_path_id with
  | none => Except.ok none
  | some path_id =>
    if p.get_serialized_file_id = owner.id then
      owner.get_tt_object_by_path_id path_id
    else
      match viewer with
      | some v =>
        match listLookup v.serialized_file_map p.get_serialized_file_id with
        | some sf => sf.get_tt_object_by_path_id path_id
        | none => Except.ok none
      | none => Except.ok none

/-- UnityAssetViewer::get_type_tree_object_by_container_name (lines
178-190): take the candidate at index 0 of the name's candidate list, find
its table, and resolve the pointer with the viewer as context; every absent
step yields Ok(None). -/
def UnityAssetViewer.get_type_tree_object_by_container_name (v : UnityAssetViewer)
    (container_name : String) : Except Unit (Option TypeTreeObject) :=
  match listLookup v.container_maps container_name with
  | some candidates =>
    match candidates.head? with
    | some (serialized_file_id, pptr) =>
      match listLookup v.serialized_file_map serialized_file_id with
      | some serialized_file => pptr.get_type_tree_object serialized_file (some v)
      | none => Except.ok none
    | none => Except.ok none
  | none => Except.ok none

/-- UnityAssetViewer::get_serialized_file_by_container_name (lines
192-202): take the candidate at index 0 and look its table up. -/
def UnityAssetViewer.get_serialized_file_by_container_name (v : UnityAssetViewer)
    (container_name : String) : Option SerializedFile :=
  match listLookup v.container_maps container_name with
  | some candidates =>
    match candidates.head? with
    | some (serialized_file_id, _pptr) => listLookup v.serialized_file_map serialized_file_id
    | none => none
  | none => none

/-- One-table content whose object #1 carries a manifest with exactly one
(name, asset) entry: the smallest input exercising the manifest loop. -/
def singleEntryManifestTable (n : String) (asset : Option PPtr) : TableData :=
  ⟨[(1, ObjResult.ok ⟨0, 0, some [(n, asset)]⟩)]⟩

/-- The effect of one manifest entry on the per-table reverse name map alone
(the name_map component of the accumulator of the loop at lines 66-82). -/
def nmStep (nm : List (Int × String)) (e : String × Option PPtr) : List (Int × String) :=
  match e.2 with
  | some pptr =>
    match pptr.get_path_id with
    | some path_id => listInsert nm path_id e.1
    | none => nm
  | none => nm

/-- Accumulator step for lastClaim: the latest name whose decoded pointer
claims target t. -/
def claimStep (t : Int) (acc : Option String) (e : String × Option PPtr) : Option String :=
  match e.2 with
  | some pptr =>
    match pptr.get_path_id with
    | some path_id => if path_id = t then some e.1 else acc
    | none => acc
  | none => acc

/-- Specification function for the amended C5: the name of the last manifest
entry (in registration order) whose decoded pointer has target identifier t,
if any. -/
def lastClaim (entries : List (String × Option PPtr)) (t : Int) : Option String :=
  entries.foldl (claimStep t) none

/-- Table content X for the duplicate-name examples: its manifest registers
name "n" with a local pointer to its object #2, which decodes to the payload
10 object. -/
def exTableX : TableData :=
  ⟨[(1, ObjResult.ok ⟨0, 0, some [("n", some (PPtr.mk 0 (some 2)))]⟩),
    (2, ObjResult.ok ⟨0, 10, none⟩)]⟩

/-- Table content Y for the duplicate-name examples: its manifest also
registers name "n", with a local pointer to its object #2, which decodes to
the distinct payload 20 object. -/
def exTableY : TableData :=
  ⟨[(1, ObjResult.ok ⟨1, 0, some [("n", some (PPtr.mk 1 (some 2)))]⟩),
    (2, ObjResult.ok ⟨1, 20, none⟩)]⟩

/-- Engine state after ingesting, on a fresh engine, two single-cab archives
whose tables both register container name "n". -/
def exViewer2 : UnityAssetViewer :=
  (UnityAssetViewer.new.read_dir
    [DirEntry.file (FileContent.ok ⟨[("c1", CabContent.table exTableX)]⟩),
      DirEntry.file (FileContent.ok ⟨[("c2", CabContent.table exTableY)]⟩)]).1

/-- The container map m extends to m' when the candidate list of every name
present in m persists in m' as a prefix: ingestion only ever appends
candidates, never removes or reorders earlier ones. -/
def mapExtends (m m' : List (String × List (Int × PPtr))) : Prop :=
  ∀ n l, listLookup m n = some l → ∃ l2, listLookup m' n = some (l ++ l2)

/-- Every table identifier's owning archive identifier is held in the
archive map: the well-formedness that makes archive lookups keyed through a
table identifier succeed. -/
def ownedArchivesHeld (v : UnityAssetViewer) : Prop :=
  ∀ tid aid, listLookup v.serialized_file_to_unity_fs_map tid = some aid →
    ∃ fs, listLookup v.unity_fs_map aid = some fs

/-- Engine state left by a read_dir call that errors on the second cab of an
archive, after successfully registering the first cab's table. -/
def exPartialViewer : UnityAssetViewer :=
  (UnityAssetViewer.new.read_dir
    [DirEntry.file
      (FileContent.ok ⟨[("a", CabContent.table ⟨[]⟩), ("b", CabContent.parseErr)]⟩)]).1

/-- The consecutive integers from a (inclusive) to b (exclusive). -/
def intRange (a b : Int) : List Int :=
  (List.range (b - a).toNat).map (fun i : Nat => a + (i : Int))

/-- Whether the cab loop over these cab outcomes completes without error. -/
def cabsOk : List (String × CabContent) → Bool
  | [] => true
  | (_, CabContent.table _) :: rest => cabsOk rest
  | _ => false

/-- Ghost trace of the table identifiers taken (line 52 of the source) while
processing these cabs with table counter c: an extraction failure stops before
an identifier is taken, a parse failure takes one identifier and stops, a
parsed table takes one identifier and processing continues. -/
def cabTrace (c : Int) : List (String × CabContent) → List Int
  | [] => []
  | (_, CabContent.extractErr) :: _ => []
  | (_, CabContent.parseErr) :: _ => [c]
  | (_, CabContent.table _) :: rest => c :: cabTrace (c + 1) rest

/-- Ghost trace of the archive identifiers taken (line 46 of the source)
while processing the directory entries with archive counter a: skipped
entries take none, an open or archive-parse failure stops before an
identifier is taken, a parsed archive takes one identifier, and processing
continues past it only when its cab loop succeeded. -/
def dirATrace (a : Int) : List DirEntry → List Int
  | [] => []
  | DirEntry.errEntry :: rest => dirATrace a rest
  | DirEntry.noFileType :: rest => dirATrace a rest
  | DirEntry.notFile :: rest => dirATrace a rest
  | DirEntry.file FileContent.openErr :: _ => []
  | DirEntry.file FileContent.fsParseErr :: _ => []
  | DirEntry.file (FileContent.ok fs) :: rest =>
    if cabsOk fs.cabs then a :: dirATrace (a + 1) rest else [a]

/-- Ghost trace of the table identifiers taken while processing the
directory entries with table counter c. -/
def dirTTrace (c : Int) : List DirEntry → List Int
  | [] => []
  | DirEntry.errEntry :: rest => dirTTrace c rest
  | DirEntry.noFileType :: rest => dirTTrace c rest
  | DirEntry.notFile :: rest => dirTTrace c rest
  | DirEntry.file FileContent.openErr :: _ => []
  | DirEntry.file FileContent.fsParseErr :: _ => []
  | DirEntry.file (FileContent.ok fs) :: rest =>
    if cabsOk fs.cabs then
      cabTrace c fs.cabs ++ dirTTrace (c + (cabTrace c fs.cabs).length) rest
    else cabTrace c fs.cabs

/-- Archive identifiers taken across a sequence of read_dir calls on one
engine instance, concatenated in ingestion order. -/
def ingestArchiveIds (v : UnityAssetViewer) : List (List DirEntry) → List Int
  | [] => []
  | d :: ds => dirATrace v.unity_fs_count d ++ ingestArchiveIds ((v.read_dir d).1) ds

/-- Table identifiers taken across a sequence of read_dir calls on one
engine instance, concatenated in ingestion order. -/
def ingestTableIds (v : UnityAssetViewer) : List (List DirEntry) → List Int
  | [] => []
  | d :: ds => dirTTrace v.serialized_file_count d ++ ingestTableIds ((v.read_dir d).1) ds

/-! Basic lemmas about the association-list map model. -/

theorem listLookup_listInsert_self {α β : Type} [DecidableEq α]
    (m : List (α × β)) (k : α) (v : β) :
    listLookup (listInsert m k v) k = some v := by
  induction m with
  | nil => simp [listInsert, listLookup]
  | cons hd t ih =>
    obtain ⟨k0, v0⟩ := hd
    by_cases hk : k0 = k
    · subst hk
      simp [listInsert, listLookup]
    · simp only [listInsert, if_neg hk, listLookup]
      rw [if_neg (fun h => hk h.symm), ih]

theorem listLookup_listInsert_ne {α β : Type} [DecidableEq α]
    (m : List (α × β)) (k k' : α) (v : β) (h : k' ≠ k) :
    listLookup (listInsert m k v) k' = listLookup m k' := by
  induction m with
  | nil => simp [listInsert, listLookup, h]
  | cons hd t ih =>
    obtain ⟨k0, v0⟩ := hd
    by_cases hk : k0 = k
    · subst hk
      simp [listInsert, listLookup, h]
    · simp only [listInsert, if_neg hk, listLookup]
      by_cases hk' : k' = k0
      · simp [hk']
      · rw [if_neg hk', if_neg hk', ih]

/-! Frame lemmas: manifest processing only touches container_maps and
container_name_maps; every other field of the engine is left unchanged. -/

theorem foldl_processContainerEntry_frame (sid : Int)
    (containers : List (String × Option PPtr)) :
    ∀ acc : UnityAssetViewer × List (Int × String),
      (containers.foldl (processContainerEntry sid) acc).1.cab_maps = acc.1.cab_maps ∧
      (containers.foldl (processContainerEntry sid) acc).1.serialized_file_map
        = acc.1.serialized_file_map ∧
      (containers.foldl (processContainerEntry sid) acc).1.serialized_file_count
        = acc.1.serialized_file_count ∧
      (containers.foldl (processContainerEntry sid) acc).1.unity_fs_map
        = acc.1.unity_fs_map ∧
      (containers.foldl (processContainerEntry sid) acc).1.unity_fs_count
        = acc.1.unity_fs_count ∧
      (containers.foldl (processContainerEntry sid) acc).1.serialized_file_to_unity_fs_map
        = acc.1.serialized_file_to_unity_fs_map ∧
      (containers.foldl (processContainerEntry sid) acc).1.container_name_maps
        = acc.1.container_name_maps := by
  induction containers with
  | nil => intro acc; simp
  | cons entry rest ih =>
    intro acc
    have step := ih (processContainerEntry sid acc entry)
    have hstep :
        (processContainerEntry sid acc entry).1.cab_maps = acc.1.cab_maps ∧
        (processContainerEntry sid acc entry).1.serialized_file_map
          = acc.1.serialized_file_map ∧
        (processContainerEntry sid acc entry).1.serialized_file_count
          = acc.1.serialized_file_count ∧
        (processContainerEntry sid acc entry).1.unity_fs_map = acc.1.unity_fs_map ∧
        (processContainerEntry sid acc entry).1.unity_fs_count = acc.1.unity_fs_count ∧
        (processContainerEntry sid acc entry).1.serialized_file_to_unity_fs_map
          = acc.1.serialized_file_to_unity_fs_map ∧
        (processContainerEntry sid acc entry).1.container_name_maps
          = acc.1.container_name_maps := by
      unfold processContainerEntry
      split
      · simp
      · simp
    simp only [List.foldl_cons]
    exact ⟨step.1.trans hstep.1,
      step.2.1.trans hstep.2.1,
      step.2.2.1.trans hstep.2.2.1,
      step.2.2.2.1.trans hstep.2.2.2.1,
      step.2.2.2.2.1.trans hstep.2.2.2.2.1,
      step.2.2.2.2.2.1.trans hstep.2.2.2.2.2.1,
      step.2.2.2.2.2.2.trans hstep.2.2.2.2.2.2⟩

theorem processManifest_frame (v : UnityAssetViewer) (sid : Int) (sf : SerializedFile) :
    (processManifest v sid sf).cab_maps = v.cab_maps ∧
    (processManifest v sid sf).serialized_file_map = v.serialized_file_map ∧
    (processManifest v sid sf).serialized_file_count = v.serialized_file_count ∧
    (processManifest v sid sf).unity_fs_map = v.unity_fs_map ∧
    (processManifest v sid sf).unity_fs_count = v.unity_fs_count ∧
    (processManifest v sid sf).serialized_file_to_unity_fs_map
      = v.serialized_file_to_unity_fs_map := by
  unfold processManifest
  split
  · split
    · rename_i containers heq
      have h := foldl_processContainerEntry_frame sid containers (v, [])
      exact ⟨h.1, h.2.1, h.2.2.1, h.2.2.2.1, h.2.2.2.2.1, h.2.2.2.2.2.1⟩
    · simp
  · simp

theorem processManifest_cab_maps (v : UnityAssetViewer) (sid : Int) (sf : SerializedFile) :
    (processManifest v sid sf).cab_maps = v.cab_maps :=
  (processManifest_frame v sid sf).1

theorem processManifest_serialized_file_map (v : UnityAssetViewer) (sid : Int)
    (sf : SerializedFile) :
    (processManifest v sid sf).serialized_file_map = v.serialized_file_map :=
  (processManifest_frame v sid sf).2.1

theorem processManifest_serialized_file_count (v : UnityAssetViewer) (sid : Int)
    (sf : SerializedFile) :
    (processManifest v sid sf).serialized_file_count = v.serialized_file_count :=
  (processManifest_frame v sid sf).2.2.1

theorem processManifest_unity_fs_map (v : UnityAssetViewer) (sid : Int)
    (sf : SerializedFile) :
    (processManifest v sid sf).unity_fs_map = v.unity_fs_map :=
  (processManifest_frame v sid sf).2.2.2.1

theorem processManifest_unity_fs_count (v : UnityAssetViewer) (sid : Int)
    (sf : SerializedFile) :
    (processManifest v sid sf).unity_fs_count = v.unity_fs_count :=
  (processManifest_frame v sid sf).2.2.2.2.1

theorem processManifest_serialized_file_to_unity_fs_map (v : UnityAssetViewer)
    (sid : Int) (sf : SerializedFile) :
    (processManifest v sid sf).serialized_file_to_unity_fs_map
      = v.serialized_file_to_unity_fs_map :=
  (processManifest_frame v sid sf).2.2.2.2.2

/-- C9: calling read_dir on an empty directory returns success and leaves the
engine state unchanged (for every starting state), and on a fresh engine every
lookup operation afterwards returns an absent result (None, or Ok(None) for the
fallible container-name resolution) rather than an error. -/
theorem read_dir_empty_dir_leaves_engine_unchanged_and_lookups_absent :
    (∀ v : UnityAssetViewer, v.read_dir [] = (v, Except.ok ())) ∧
    (UnityAssetViewer.new.read_dir []).2 = Except.ok () ∧
    (∀ p : String,
      ((UnityAssetViewer.new.read_dir []).1).get_serialized_file_by_path p = none) ∧
    (∀ p : String,
      ((UnityAssetViewer.new.read_dir []).1).get_unity_fs_by_cab_path p = none) ∧
    (∀ pp : PPtr,
      ((UnityAssetViewer.new.read_dir []).1).get_unity_fs_by_pptr pp = none) ∧
    (∀ o : TypeTreeObject,
      ((UnityAssetViewer.new.read_dir []).1).get_unity_fs_by_type_tree_object o = none) ∧
    (∀ (p : String) (path_id : Int),
      ((UnityAssetViewer.new.read_dir []).1).get_container_name_by_path_id p path_id = none) ∧
    (∀ pp : PPtr,
      ((UnityAssetViewer.new.read_dir []).1).get_container_name_by_pptr pp = none) ∧
    (∀ n : String,
      ((UnityAssetViewer.new.read_dir []).1).get_type_tree_object_by_container_name n
        = Except.ok none) ∧
    (∀ n : String,
      ((UnityAssetViewer.new.read_dir []).1).get_serialized_file_by_container_name n = none) :=
  ⟨fun _ => rfl, rfl, fun _ => rfl, fun _ => rfl, fun _ => rfl, fun _ => rfl,
    fun _ _ => rfl, fun _ => rfl, fun _ => rfl, fun _ => rfl⟩

/-- C10: a directory entry that yields an iteration error, or whose file type
cannot be determined, or that is not a regular file, is skipped: read_dir on
such an entry followed by the remaining entries behaves exactly like read_dir
on the remaining entries alone - same final state (so no identifier is
consumed and no index changes) and same result (no error from the skipped
entry). -/
theorem read_dir_skips_unreadable_and_non_regular_entries :
    ∀ (v : UnityAssetViewer) (rest : List DirEntry),
      v.read_dir (DirEntry.errEntry :: rest) = v.read_dir rest ∧
      v.read_dir (DirEntry.noFileType :: rest) = v.read_dir rest ∧
      v.read_dir (DirEntry.notFile :: rest) = v.read_dir rest :=
  fun _ _ => ⟨rfl, rfl, rfl⟩

/-- C6: when two ingested archives expose the same virtual-file (cab) name,
the name-to-table mapping is silently overwritten: after ingesting, from any
engine state, two single-cab archives that both expose cab name p, read_dir
returns success (no error raised), the cab map sends p to the table identifier
assigned to the later archive's cab, and get_serialized_file_by_path p returns
the later-ingested table (last-write-wins). -/
theorem cab_maps_last_write_wins :
    ∀ (v : UnityAssetViewer) (p : String) (d1 d2 : TableData),
      (v.read_dir [DirEntry.file (FileContent.ok ⟨[(p, CabContent.table d1)]⟩),
          DirEntry.file (FileContent.ok ⟨[(p, CabContent.table d2)]⟩)]).2
        = Except.ok () ∧
      listLookup
        (v.read_dir [DirEntry.file (FileContent.ok ⟨[(p, CabContent.table d1)]⟩),
          DirEntry.file (FileContent.ok ⟨[(p, CabContent.table d2)]⟩)]).1.cab_maps p
        = some (v.serialized_file_count + 1) ∧
      (v.read_dir [DirEntry.file (FileContent.ok ⟨[(p, CabContent.table d1)]⟩),
          DirEntry.file (FileContent.ok ⟨[(p, CabContent.table d2)]⟩)]).1.get_serialized_file_by_path
          p
        = some { id := v.serialized_file_count + 1, data := d2 } := by
  intro v p d1 d2
  simp only [UnityAssetViewer.read_dir, processEntry, processCabs, processCab,
    UnityAssetViewer.get_serialized_file_by_path,
    processManifest_cab_maps, processManifest_serialized_file_map,
    processManifest_serialized_file_count, processManifest_unity_fs_map,
    processManifest_unity_fs_count, processManifest_serialized_file_to_unity_fs_map,
    listLookup_listInsert_self]
  simp [listLookup_listInsert_self]

theorem processManifest_no_object_one (v : UnityAssetViewer) (sid : Int)
    (sf : SerializedFile) (h : sf.get_tt_object_by_path_id 1 = Except.ok none) :
    processManifest v sid sf = v := by
  unfold processManifest
  rw [h]

/-- C8: a table whose object #1 is absent still ingests successfully: read_dir
over an archive holding that single table returns success, the manifest step
contributes nothing (container_maps and container_name_maps are exactly as
before), and the table remains reachable afterwards through
get_serialized_file_by_path with its virtual-file name. -/
theorem read_dir_succeeds_without_manifest_object :
    ∀ (v : UnityAssetViewer) (p : String) (d : TableData),
      listLookup d.objects 1 = none →
      (v.read_dir [DirEntry.file (FileContent.ok ⟨[(p, CabContent.table d)]⟩)]).2
        = Except.ok () ∧
      (v.read_dir [DirEntry.file (FileContent.ok ⟨[(p, CabContent.table d)]⟩)]).1.container_maps
        = v.container_maps ∧
      (v.read_dir
          [DirEntry.file (FileContent.ok ⟨[(p, CabContent.table d)]⟩)]).1.container_name_maps
        = v.container_name_maps ∧
      (v.read_dir
            [DirEntry.file
              (FileContent.ok ⟨[(p, CabContent.table d)]⟩)]).1.get_serialized_file_by_path p
        = some { id := v.serialized_file_count, data := d } := by
  intro v p d h
  have hm : SerializedFile.get_tt_object_by_path_id
      { id := v.serialized_file_count, data := d } 1 = Except.ok none := by
    simp [SerializedFile.get_tt_object_by_path_id, h]
  simp only [UnityAssetViewer.read_dir, processEntry, processCabs, processCab,
    UnityAssetViewer.get_serialized_file_by_path]
  rw [processManifest_no_object_one _ _ _ hm]
  simp [listLookup_listInsert_self]

/-- Witness for the C8 theorem at a concrete input: a one-object table whose
only object has identifier 2, so object #1 is absent. -/
theorem read_dir_succeeds_without_manifest_object_witness :
    listLookup (TableData.mk [(2, ObjResult.ok ⟨0, 7, none⟩)]).objects 1 = none ∧
    (UnityAssetViewer.new.read_dir
        [DirEntry.file
          (FileContent.ok
            ⟨[("CAB-abc", CabContent.table (TableData.mk [(2, ObjResult.ok ⟨0, 7, none⟩)]))]⟩)]).1.get_serialized_file_by_path
        "CAB-abc"
      = some { id := 0, data := TableData.mk [(2, ObjResult.ok ⟨0, 7, none⟩)] } :=
  ⟨by decide,
    (read_dir_succeeds_without_manifest_object UnityAssetViewer.new "CAB-abc"
      (TableData.mk [(2, ObjResult.ok ⟨0, 7, none⟩)]) (by decide)).2.2.2⟩

theorem listLookup_containerPush_self (m : List (String × List (Int × PPtr)))
    (n : String) (x : Int × PPtr) :
    listLookup (containerPush m n x) n = some ((listLookup m n).getD [] ++ [x]) := by
  unfold containerPush
  cases h : listLookup m n <;> simp [h, listLookup_listInsert_self]

/-- C4 counterexample: ingesting a manifest entry whose decoded pointer has an
absent target identifier does contribute a candidate to the container map - the
candidate list under the entry's name holds the (table id, pointer) pair even
though the pointer's target identifier is none, where the claim requires that
no candidate be contributed. -/
theorem absent_target_candidate_counterexample :
    (PPtr.mk 0 none).get_path_id = none ∧
    listLookup
        ((UnityAssetViewer.new.read_dir
          [DirEntry.file
            (FileContent.ok
              ⟨[("c", CabContent.table (singleEntryManifestTable "n" (some (PPtr.mk 0 none))))]⟩)]).1).container_maps
        "n"
      = some [(0, PPtr.mk 0 none)] := by
  constructor
  · rfl
  · decide

/-- C4 amended: during manifest ingestion a (table id, pointer) candidate is
appended under the entry's name whenever the entry's pointer field decodes,
regardless of whether the pointer's target identifier is present; only the
per-table reverse-map entry is gated on target presence, so an entry with an
absent target identifier still contributes a candidate while the recorded
reverse map stays empty. -/
theorem candidate_appended_regardless_of_target :
    ∀ (v : UnityAssetViewer) (p n : String) (pptr : PPtr),
      pptr.get_path_id = none →
      (v.read_dir
          [DirEntry.file
            (FileContent.ok
              ⟨[(p, CabContent.table (singleEntryManifestTable n (some pptr)))]⟩)]).2
        = Except.ok () ∧
      listLookup
          (v.read_dir
            [DirEntry.file
              (FileContent.ok
                ⟨[(p, CabContent.table (singleEntryManifestTable n (some pptr)))]⟩)]).1.container_maps
          n
        = some ((listLookup v.container_maps n).getD [] ++ [(v.serialized_file_count, pptr)]) ∧
      listLookup
          (v.read_dir
            [DirEntry.file
              (FileContent.ok
                ⟨[(p, CabContent.table (singleEntryManifestTable n (some pptr)))]⟩)]).1.container_name_maps
          v.serialized_file_count
        = some [] := by
  intro v p n pptr hp
  simp only [UnityAssetViewer.read_dir, processEntry, processCabs, processCab,
    processManifest, SerializedFile.get_tt_object_by_path_id, singleEntryManifestTable,
    listLookup, if_pos rfl, List.foldl_cons, List.foldl_nil, processContainerEntry, hp]
  simp [processContainerEntry, hp, listLookup_containerPush_self,
    listLookup_listInsert_self, listLookup_listInsert_ne]

/-- Witness for the C4 amended theorem at a concrete input. -/
theorem candidate_appended_regardless_of_target_witness :
    (PPtr.mk 3 none).get_path_id = none ∧
    listLookup
        ((UnityAssetViewer.new.read_dir
          [DirEntry.file
            (FileContent.ok
              ⟨[("c", CabContent.table (singleEntryManifestTable "m" (some (PPtr.mk 3 none))))]⟩)]).1).container_maps
        "m"
      = some ((listLookup UnityAssetViewer.new.container_maps "m").getD []
          ++ [(UnityAssetViewer.new.serialized_file_count, PPtr.mk 3 none)]) :=
  ⟨rfl,
    (candidate_appended_regardless_of_target UnityAssetViewer.new "c" "m"
      (PPtr.mk 3 none) rfl).2.1⟩

theorem foldl_processContainerEntry_nm (sid : Int)
    (entries : List (String × Option PPtr)) :
    ∀ acc : UnityAssetViewer × List (Int × String),
      (entries.foldl (processContainerEntry sid) acc).2 = entries.foldl nmStep acc.2 := by
  induction entries with
  | nil => intro acc; simp
  | cons e rest ih =>
    intro acc
    have hstep : (processContainerEntry sid acc e).2 = nmStep acc.2 e := by
      unfold processContainerEntry nmStep
      split
      · rfl
      · rfl
    simp only [List.foldl_cons, ih, hstep]

theorem foldl_claimStep_acc (t : Int) (entries : List (String × Option PPtr)) :
    ∀ a : Option String,
      entries.foldl (claimStep t) a
        = match entries.foldl (claimStep t) none with
          | some n => some n
          | none => a := by
  induction entries with
  | nil => intro a; simp
  | cons e rest ih =>
    intro a
    simp only [List.foldl_cons]
    rw [ih (claimStep t a e), ih (claimStep t none e)]
    cases hrest : rest.foldl (claimStep t) none with
    | some n => simp
    | none =>
      simp only
      unfold claimStep
      split
      · split
        · split <;> rfl
        · rfl
      · rfl

theorem listLookup_foldl_nmStep (t : Int) (entries : List (String × Option PPtr)) :
    ∀ nm : List (Int × String),
      listLookup (entries.foldl nmStep nm) t
        = match lastClaim entries t with
          | some n => some n
          | none => listLookup nm t := by
  induction entries with
  | nil => intro nm; simp [lastClaim]
  | cons e rest ih =>
    intro nm
    simp only [List.foldl_cons]
    rw [ih (nmStep nm e)]
    have hlast : lastClaim (e :: rest) t
        = match lastClaim rest t with
          | some n => some n
          | none => claimStep t none e := by
      unfold lastClaim
      simp only [List.foldl_cons]
      exact foldl_claimStep_acc t rest (claimStep t none e)
    rw [hlast]
    cases hrest : lastClaim rest t with
    | some n => simp
    | none =>
      simp only
      unfold nmStep claimStep
      split
      · rename_i pptr heq
        cases hpid : pptr.get_path_id with
        | some path_id =>
          simp only
          by_cases hpt : path_id = t
          · subst hpt
            simp [listLookup_listInsert_self]
          · rw [if_neg hpt, listLookup_listInsert_ne _ _ _ _ (fun h => hpt h.symm)]
        | none => simp
      · rfl

theorem processManifest_container_name_maps (v : UnityAssetViewer) (sid : Int)
    (sf : SerializedFile) (ab : TypeTreeObject) (entries : List (String × Option PPtr))
    (h1 : sf.get_tt_object_by_path_id 1 = Except.ok (some ab))
    (h2 : ab.container_array = some entries) :
    (processManifest v sid sf).container_name_maps
      = listInsert v.container_name_maps sid (entries.foldl nmStep []) := by
  unfold processManifest
  simp only [h1, h2]
  rw [foldl_processContainerEntry_nm sid entries (v, [])]
  have := foldl_processContainerEntry_frame sid entries (v, [])
  simp [this.2.2.2.2.2.2]

/-- C5 counterexample: a table manifest registering two names "a" then "b"
that both claim target identifier 5 makes get_container_name_by_path_id
return "b", the later-registered name, not the first-registered "a" that the
claim requires. -/
theorem reverse_map_first_registered_counterexample :
    ((UnityAssetViewer.new.read_dir
        [DirEntry.file
          (FileContent.ok
            ⟨[("c",
              CabContent.table
                ⟨[(1, ObjResult.ok
                    ⟨0, 0, some [("a", some (PPtr.mk 0 (some 5))),
                      ("b", some (PPtr.mk 0 (some 5)))]⟩)]⟩)]⟩)]).1).get_container_name_by_path_id
        "c" 5
      = some "b" ∧ ("b" : String) ≠ "a" := by
  constructor
  · decide
  · decide

/-- C5 amended: for every target identifier t, looking the table's cab name
and t up through get_container_name_by_path_id after ingestion returns the
name of the LAST manifest entry registered for t in that table (the per-table
reverse map is built with insert-overwrites semantics, so among several names
claiming the same target identifier the last-registered one wins, not the
first-registered one). -/
theorem reverse_map_last_registered_wins :
    ∀ (v : UnityAssetViewer) (p : String) (d : TableData) (ab : TypeTreeObject)
      (entries : List (String × Option PPtr)) (t : Int),
      listLookup d.objects 1 = some (ObjResult.ok ab) →
      ab.container_array = some entries →
      ((v.read_dir
          [DirEntry.file (FileContent.ok ⟨[(p, CabContent.table d)]⟩)]).1).get_container_name_by_path_id
          p t
        = lastClaim entries t := by
  intro v p d ab entries t h1 h2
  have hget : SerializedFile.get_tt_object_by_path_id
      { id := v.serialized_file_count, data := d } 1 = Except.ok (some ab) := by
    simp [SerializedFile.get_tt_object_by_path_id, h1]
  simp only [UnityAssetViewer.read_dir, processEntry, processCabs, processCab,
    UnityAssetViewer.get_container_name_by_path_id,
    processManifest_cab_maps, listLookup_listInsert_self,
    processManifest_container_name_maps _ _ _ _ _ hget h2]
  rw [listLookup_foldl_nmStep]
  cases hlc : lastClaim entries t <;> simp [listLookup]

/-- Witness for the C5 amended theorem at the counterexample input: the
last-registered of the two names claiming target 5 is returned. -/
theorem reverse_map_last_registered_wins_witness :
    listLookup
        (TableData.mk
          [(1, ObjResult.ok
              ⟨0, 0, some [("a", some (PPtr.mk 0 (some 5))),
                ("b", some (PPtr.mk 0 (some 5)))]⟩)]).objects 1
      = some (ObjResult.ok
          ⟨0, 0, some [("a", some (PPtr.mk 0 (some 5))),
            ("b", some (PPtr.mk 0 (some 5)))]⟩) ∧
    ((UnityAssetViewer.new.read_dir
        [DirEntry.file
          (FileContent.ok
            ⟨[("c",
              CabContent.table
                (TableData.mk
                  [(1, ObjResult.ok
                      ⟨0, 0, some [("a", some (PPtr.mk 0 (some 5))),
                        ("b", some (PPtr.mk 0 (some 5)))]⟩)]))]⟩)]).1).get_container_name_by_path_id
        "c" 5
      = lastClaim
          [("a", some (PPtr.mk 0 (some 5))), ("b", some (PPtr.mk 0 (some 5)))] 5 :=
  ⟨by decide,
    reverse_map_last_registered_wins UnityAssetViewer.new "c"
      (TableData.mk
        [(1, ObjResult.ok
            ⟨0, 0, some [("a", some (PPtr.mk 0 (some 5))),
              ("b", some (PPtr.mk 0 (some 5)))]⟩)])
      ⟨0, 0, some [("a", some (PPtr.mk 0 (some 5))), ("b", some (PPtr.mk 0 (some 5)))]⟩
      [("a", some (PPtr.mk 0 (some 5))), ("b", some (PPtr.mk 0 (some 5)))] 5
      (by decide) rfl⟩

/-- C2 counterexample: table 1 (content Y) registers name "n" with pointer
target 2 local to itself, so the claim demands that resolving "n" yield table
1's object #2 (payload 20); but the engine resolves "n" through the
first-registered candidate of table 0 (content X) and returns its object #2
(payload 10), a different decoded object. -/
theorem round_trip_counterexample :
    listLookup exViewer2.container_maps "n"
      = some [(0, PPtr.mk 0 (some 2)), (1, PPtr.mk 1 (some 2))] ∧
    listLookup exViewer2.serialized_file_map 1 = some ⟨1, exTableY⟩ ∧
    exViewer2.get_type_tree_object_by_container_name "n"
      = Except.ok (some ⟨0, 10, none⟩) ∧
    SerializedFile.get_tt_object_by_path_id ⟨1, exTableY⟩ 2
      = Except.ok (some ⟨1, 20, none⟩) ∧
    (⟨0, 10, none⟩ : TypeTreeObject) ≠ ⟨1, 20, none⟩ :=
  ⟨by decide, by decide, rfl, rfl, by decide⟩

/-- C2 amended: the round trip holds for the first-registered candidate: if
the candidate at index 0 of name N's list is (T, pointer) with the pointer's
target t local to T, and T is held by the engine, then resolving N returns
exactly what resolving t directly against T produces. For a later (non-head)
candidate the lookup may return a different table's object, as the
counterexample shows. -/
theorem round_trip_first_candidate :
    ∀ (v : UnityAssetViewer) (n : String) (sid : Int) (pptr : PPtr)
      (rest : List (Int × PPtr)) (sf : SerializedFile) (t : Int),
      listLookup v.container_maps n = some ((sid, pptr) :: rest) →
      pptr.get_serialized_file_id = sid →
      pptr.get_path_id = some t →
      listLookup v.serialized_file_map sid = some sf →
      v.get_type_tree_object_by_container_name n = sf.get_tt_object_by_path_id t := by
  intro v n sid pptr rest sf t h1 h2 h3 h4
  simp only [UnityAssetViewer.get_type_tree_object_by_container_name, h1, List.head?,
    h4, PPtr.get_type_tree_object, h3]
  by_cases hloc : pptr.get_serialized_file_id = sf.id
  · rw [if_pos hloc]
  · rw [if_neg hloc]
    simp only [h2, h4]

/-- Witness for the C2 amended theorem: on the two-archive duplicate-name
state, the first-registered candidate (table 0, local target 2) round-trips
to table 0's own object #2. -/
theorem round_trip_first_candidate_witness :
    listLookup exViewer2.container_maps "n"
      = some ((0, PPtr.mk 0 (some 2)) :: [(1, PPtr.mk 1 (some 2))]) ∧
    listLookup exViewer2.serialized_file_map 0 = some ⟨0, exTableX⟩ ∧
    exViewer2.get_type_tree_object_by_container_name "n"
      = SerializedFile.get_tt_object_by_path_id ⟨0, exTableX⟩ 2 :=
  ⟨by decide, by decide,
    round_trip_first_candidate exViewer2 "n" 0 (PPtr.mk 0 (some 2))
      [(1, PPtr.mk 1 (some 2))] ⟨0, exTableX⟩ 2 (by decide) rfl rfl (by decide)⟩

theorem mapExtends_refl (m : List (String × List (Int × PPtr))) : mapExtends m m :=
  fun n l h => ⟨[], by simpa using h⟩

theorem mapExtends_trans {m1 m2 m3 : List (String × List (Int × PPtr))}
    (h12 : mapExtends m1 m2) (h23 : mapExtends m2 m3) : mapExtends m1 m3 := by
  intro n l h
  obtain ⟨l2, h2⟩ := h12 n l h
  obtain ⟨l3, h3⟩ := h23 n (l ++ l2) h2
  exact ⟨l2 ++ l3, by simpa [List.append_assoc] using h3⟩

theorem mapExtends_containerPush (m : List (String × List (Int × PPtr)))
    (name : String) (x : Int × PPtr) : mapExtends m (containerPush m name x) := by
  intro n l h
  by_cases hn : n = name
  · subst hn
    unfold containerPush
    rw [h]
    exact ⟨[x], listLookup_listInsert_self m n (l ++ [x])⟩
  · refine ⟨[], ?_⟩
    unfold containerPush
    cases hl : listLookup m name <;>
      simp [listLookup_listInsert_ne _ _ _ _ hn, h]

theorem mapExtends_processContainerEntry (sid : Int)
    (acc : UnityAssetViewer × List (Int × String)) (e : String × Option PPtr) :
    mapExtends acc.1.container_maps (processContainerEntry sid acc e).1.container_maps := by
  unfold processContainerEntry
  split
  · exact mapExtends_containerPush _ _ _
  · exact mapExtends_refl _

theorem mapExtends_foldl_processContainerEntry (sid : Int)
    (entries : List (String × Option PPtr)) :
    ∀ acc : UnityAssetViewer × List (Int × String),
      mapExtends acc.1.container_maps
        (entries.foldl (processContainerEntry sid) acc).1.container_maps := by
  induction entries with
  | nil => intro acc; exact mapExtends_refl _
  | cons e rest ih =>
    intro acc
    simp only [List.foldl_cons]
    exact mapExtends_trans (mapExtends_processContainerEntry sid acc e)
      (ih (processContainerEntry sid acc e))

theorem mapExtends_processManifest (v : UnityAssetViewer) (sid : Int)
    (sf : SerializedFile) :
    mapExtends v.container_maps (processManifest v sid sf).container_maps := by
  unfold processManifest
  split
  · split
    · rename_i containers heq
      exact mapExtends_foldl_processContainerEntry sid containers (v, [])
    · exact mapExtends_refl _
  · exact mapExtends_refl _

theorem mapExtends_processCab (v : UnityAssetViewer) (unity_fs_id : Int)
    (cab : String × CabContent) :
    mapExtends v.container_maps (processCab v unity_fs_id cab).1.container_maps := by
  unfold processCab
  split
  · exact mapExtends_refl _
  · exact mapExtends_refl _
  · rename_i d heq
    exact mapExtends_processManifest
      { v with serialized_file_count := v.serialized_file_count + 1 }
      v.serialized_file_count { id := v.serialized_file_count, data := d }

theorem mapExtends_processCabs (unity_fs_id : Int) (cabs : List (String × CabContent)) :
    ∀ v : UnityAssetViewer,
      mapExtends v.container_maps (processCabs v unity_fs_id cabs).1.container_maps := by
  induction cabs with
  | nil => intro v; exact mapExtends_refl _
  | cons cab rest ih =>
    intro v
    unfold processCabs
    cases hc : processCab v unity_fs_id cab with
    | mk v1 r =>
      have hext : mapExtends v.container_maps v1.container_maps := by
        have := mapExtends_processCab v unity_fs_id cab
        rw [hc] at this
        exact this
      cases r with
      | ok u =>
        cases u
        exact mapExtends_trans hext (ih v1)
      | error e => exact hext

theorem mapExtends_processEntry (v : UnityAssetViewer) (e : DirEntry) :
    mapExtends v.container_maps (processEntry v e).1.container_maps := by
  cases e with
  | errEntry => exact mapExtends_refl _
  | noFileType => exact mapExtends_refl _
  | notFile => exact mapExtends_refl _
  | file c =>
    cases c with
    | openErr => exact mapExtends_refl _
    | fsParseErr => exact mapExtends_refl _
    | ok fs =>
      unfold processEntry
      have hext := mapExtends_processCabs v.unity_fs_count fs.cabs
        { v with unity_fs_count := v.unity_fs_count + 1 }
      rcases hc : processCabs { v with unity_fs_count := v.unity_fs_count + 1 }
          v.unity_fs_count fs.cabs with ⟨v2, r⟩
      rw [hc] at hext
      simp only [hc]
      cases r with
      | ok u => cases u; exact hext
      | error e => exact hext

theorem mapExtends_read_dir (entries : List DirEntry) :
    ∀ v : UnityAssetViewer,
      mapExtends v.container_maps ((v.read_dir entries).1).container_maps := by
  induction entries with
  | nil => intro v; exact mapExtends_refl _
  | cons e rest ih =>
    intro v
    unfold UnityAssetViewer.read_dir
    cases hc : processEntry v e with
    | mk v1 r =>
      have hext : mapExtends v.container_maps v1.container_maps := by
        have := mapExtends_processEntry v e
        rw [hc] at this
        exact this
      cases r with
      | ok u =>
        cases u
        exact mapExtends_trans hext (ih v1)
      | error e' => exact hext

/-- C3: single-object lookups by container name consult only the candidate at
index 0: whenever a name's candidate list starts with candidate c, both
get_type_tree_object_by_container_name and get_serialized_file_by_container_name
compute a result that depends only on c (and the table map), never on the later
candidates; and later candidates are retained: ingestion only appends to a
name's candidate list, so every previously registered list persists as a prefix. -/
theorem container_lookups_use_first_candidate_and_retain_later_ones :
    (∀ (v : UnityAssetViewer) (n : String) (c : Int × PPtr) (rest : List (Int × PPtr)),
      listLookup v.container_maps n = some (c :: rest) →
      v.get_type_tree_object_by_container_name n
        = (match listLookup v.serialized_file_map c.1 with
           | some sf => c.2.get_type_tree_object sf (some v)
           | none => Except.ok none) ∧
      v.get_serialized_file_by_container_name n
        = listLookup v.serialized_file_map c.1) ∧
    (∀ (v : UnityAssetViewer) (entries : List DirEntry) (n : String)
        (l : List (Int × PPtr)),
      listLookup v.container_maps n = some l →
      ∃ l2, listLookup ((v.read_dir entries).1).container_maps n = some (l ++ l2)) := by
  constructor
  · intro v n c rest h
    obtain ⟨sid, pptr⟩ := c
    constructor
    · simp only [UnityAssetViewer.get_type_tree_object_by_container_name, h, List.head?]
    · simp only [UnityAssetViewer.get_serialized_file_by_container_name, h, List.head?]
  · intro v entries n l h
    exact mapExtends_read_dir entries v n l h

/-- Witness for the C3 theorem: on the two-archive duplicate-name state, the
resolution of "n" goes through the head candidate (table 0), and ingesting a
further archive registering "n" keeps the existing two candidates as a
prefix. -/
theorem container_lookups_use_first_candidate_witness :
    listLookup exViewer2.container_maps "n"
      = some ((0, PPtr.mk 0 (some 2)) :: [(1, PPtr.mk 1 (some 2))]) ∧
    exViewer2.get_serialized_file_by_container_name "n"
      = listLookup exViewer2.serialized_file_map 0 ∧
    ∃ l2,
      listLookup
          ((exViewer2.read_dir
            [DirEntry.file (FileContent.ok ⟨[("c3", CabContent.table exTableY)]⟩)]).1).container_maps
          "n"
        = some ([(0, PPtr.mk 0 (some 2)), (1, PPtr.mk 1 (some 2))] ++ l2) :=
  ⟨by decide,
    ((container_lookups_use_first_candidate_and_retain_later_ones.1 exViewer2 "n"
      (0, PPtr.mk 0 (some 2)) [(1, PPtr.mk 1 (some 2))] (by decide))).2,
    container_lookups_use_first_candidate_and_retain_later_ones.2 exViewer2
      [DirEntry.file (FileContent.ok ⟨[("c3", CabContent.table exTableY)]⟩)] "n"
      [(0, PPtr.mk 0 (some 2)), (1, PPtr.mk 1 (some 2))] (by decide)⟩

theorem processCab_unity_frame (v : UnityAssetViewer) (unity_fs_id : Int)
    (cab : String × CabContent) :
    (processCab v unity_fs_id cab).1.unity_fs_map = v.unity_fs_map ∧
    (processCab v unity_fs_id cab).1.unity_fs_count = v.unity_fs_count := by
  unfold processCab
  split
  · exact ⟨rfl, rfl⟩
  · exact ⟨rfl, rfl⟩
  · rename_i d heq
    exact ⟨processManifest_unity_fs_map _ _ _, processManifest_unity_fs_count _ _ _⟩

theorem processCabs_unity_frame (unity_fs_id : Int) (cabs : List (String × CabContent)) :
    ∀ v : UnityAssetViewer,
      (processCabs v unity_fs_id cabs).1.unity_fs_map = v.unity_fs_map ∧
      (processCabs v unity_fs_id cabs).1.unity_fs_count = v.unity_fs_count := by
  induction cabs with
  | nil => intro v; exact ⟨rfl, rfl⟩
  | cons cab rest ih =>
    intro v
    unfold processCabs
    rcases hc : processCab v unity_fs_id cab with ⟨v1, r⟩
    have hframe := processCab_unity_frame v unity_fs_id cab
    rw [hc] at hframe
    cases r with
    | ok u =>
      cases u
      simp only
      exact ⟨(ih v1).1.trans hframe.1, (ih v1).2.trans hframe.2⟩
    | error e => exact hframe

theorem processCabs_owner_ids (unity_fs_id : Int) (cabs : List (String × CabContent)) :
    ∀ (v v' : UnityAssetViewer),
      processCabs v unity_fs_id cabs = (v', Except.ok ()) →
      ∀ tid aid, listLookup v'.serialized_file_to_unity_fs_map tid = some aid →
        listLookup v.serialized_file_to_unity_fs_map tid = some aid ∨ aid = unity_fs_id := by
  induction cabs with
  | nil =>
    intro v v' h tid aid hl
    unfold processCabs at h
    cases h
    exact Or.inl hl
  | cons cab rest ih =>
    intro v v' h tid aid hl
    unfold processCabs at h
    rcases hc : processCab v unity_fs_id cab with ⟨v1, r⟩
    rw [hc] at h
    cases r with
    | error e => cases h
    | ok u =>
      cases u
      have := ih v1 v' h tid aid hl
      cases this with
      | inr haid => exact Or.inr haid
      | inl hv1 =>
        rcases hcab : cab.2 with _ | _ | d
        · rw [processCab] at hc
          rw [hcab] at hc
          cases hc
        · rw [processCab] at hc
          rw [hcab] at hc
          cases hc
        · rw [processCab] at hc
          rw [hcab] at hc
          cases hc
          simp only at hv1
          rw [processManifest_serialized_file_to_unity_fs_map] at hv1
          by_cases htid : tid = v.serialized_file_count
          · subst htid
            rw [listLookup_listInsert_self] at hv1
            cases hv1
            exact Or.inr rfl
          · rw [listLookup_listInsert_ne _ _ _ _ htid] at hv1
            exact Or.inl hv1

theorem processEntry_preserves_ownedArchivesHeld (v v' : UnityAssetViewer)
    (e : DirEntry) (h : processEntry v e = (v', Except.ok ()))
    (hv : ownedArchivesHeld v) : ownedArchivesHeld v' := by
  cases e with
  | errEntry => cases h; exact hv
  | noFileType => cases h; exact hv
  | notFile => cases h; exact hv
  | file c =>
    cases c with
    | openErr => cases h
    | fsParseErr => cases h
    | ok fs =>
      simp only [processEntry] at h
      rcases hc : processCabs { v with unity_fs_count := v.unity_fs_count + 1 }
          v.unity_fs_count fs.cabs with ⟨v2, r⟩
      rw [hc] at h
      cases r with
      | error e => cases h
      | ok u =>
        cases u
        cases h
        intro tid aid hl
        simp only at hl
        have hids := processCabs_owner_ids v.unity_fs_count fs.cabs _ _ hc tid aid hl
        have humap : v2.unity_fs_map = v.unity_fs_map := by
          have := (processCabs_unity_frame v.unity_fs_count fs.cabs
            { v with unity_fs_count := v.unity_fs_count + 1 }).1
          rw [hc] at this
          exact this
        simp only [humap]
        by_cases haid : aid = v.unity_fs_count
        · subst haid
          exact ⟨fs, listLookup_listInsert_self _ _ _⟩
        · rw [listLookup_listInsert_ne _ _ _ _ haid]
          cases hids with
          | inl hold => exact hv tid aid hold
          | inr hnew => exact absurd hnew haid

/-- C7 amended: after read_dir calls that returned success, every table
identifier registered in the engine maps through the table-to-archive map to
an archive identifier that is held in the archive map (so archive lookups
keyed through that table identifier succeed); a call that errors partway
through an archive can instead leave that archive's already-registered tables
mapping to an archive identifier that is not yet held, as the counterexample
shows. -/
theorem read_dir_success_preserves_owned_archives :
    ∀ (entries : List DirEntry) (v v' : UnityAssetViewer),
      v.read_dir entries = (v', Except.ok ()) →
      ownedArchivesHeld v → ownedArchivesHeld v' := by
  intro entries
  induction entries with
  | nil =>
    intro v v' h hv
    cases h
    exact hv
  | cons e rest ih =>
    intro v v' h hv
    unfold UnityAssetViewer.read_dir at h
    rcases hc : processEntry v e with ⟨v1, r⟩
    rw [hc] at h
    cases r with
    | error e' => cases h
    | ok u =>
      cases u
      exact ih v1 v' h (processEntry_preserves_ownedArchivesHeld v v1 e hc hv)

/-- C7 counterexample: a read_dir call that errors partway through an archive
leaves table 0 mapped to owning archive 0 while archive 0 is NOT held by the
engine (insertion into unity_fs_map is skipped on error), so the archive
lookup keyed through table 0's cab path fails, where the claim requires it to
succeed. -/
theorem owning_archive_not_held_counterexample :
    listLookup exPartialViewer.cab_maps "a" = some 0 ∧
    listLookup exPartialViewer.serialized_file_to_unity_fs_map 0 = some 0 ∧
    listLookup exPartialViewer.unity_fs_map 0 = none ∧
    exPartialViewer.get_unity_fs_by_cab_path "a" = none := by
  refine ⟨by decide, by decide, by decide, by decide⟩

/-- Witness for the C7 amended theorem: a successful ingestion of one
single-cab archive from a fresh engine leaves every registered table's owning
archive held. -/
theorem read_dir_success_preserves_owned_archives_witness :
    ownedArchivesHeld
      ((UnityAssetViewer.new.read_dir
        [DirEntry.file (FileContent.ok ⟨[("a", CabContent.table ⟨[]⟩)]⟩)]).1) :=
  read_dir_success_preserves_owned_archives
    [DirEntry.file (FileContent.ok ⟨[("a", CabContent.table ⟨[]⟩)]⟩)]
    UnityAssetViewer.new
    ((UnityAssetViewer.new.read_dir
      [DirEntry.file (FileContent.ok ⟨[("a", CabContent.table ⟨[]⟩)]⟩)]).1)
    rfl (fun _ _ h => nomatch h)

theorem intRange_self (a : Int) : intRange a a = [] := by
  simp [intRange]

theorem intRange_cons (a b : Int) (h : a < b) : intRange a b = a :: intRange (a + 1) b := by
  unfold intRange
  have hn : (b - a).toNat = (b - (a + 1)).toNat + 1 := by omega
  rw [hn, List.range_succ_eq_map]
  simp only [List.map_cons, Nat.cast_zero, add_zero, List.map_map]
  refine congrArg (List.cons a) ?_
  apply List.map_congr_left
  intro i hi
  simp only [Function.comp]
  push_cast
  ring

theorem mem_intRange (a b x : Int) (h : x ∈ intRange a b) : a ≤ x ∧ x < b := by
  unfold intRange at h
  obtain ⟨i, hi, rfl⟩ := List.mem_map.mp h
  have := List.mem_range.mp hi
  omega

theorem intRange_pairwise (a b : Int) : List.Pairwise (· < ·) (intRange a b) := by
  unfold intRange
  refine List.Pairwise.map _ ?_ (List.pairwise_lt_range _)
  intro i j hij
  omega

theorem intRange_append (a b c : Int) (h1 : a ≤ b) (h2 : b ≤ c) :
    intRange a b ++ intRange b c = intRange a c := by
  unfold intRange
  have hn : (c - a).toNat = (b - a).toNat + (c - b).toNat := by omega
  rw [hn, List.range_add, List.map_append, List.map_map]
  refine congrArg
    (fun l => List.map (fun i : Nat => a + (i : Int)) (List.range (b - a).toNat) ++ l) ?_
  apply List.map_congr_left
  intro i hi
  simp only [Function.comp]
  push_cast
  omega

theorem intRange_length (a b : Int) : (intRange a b).length = (b - a).toNat := by
  simp [intRange]

theorem cabTrace_spec (u : Int) (cabs : List (String × CabContent)) :
    ∀ v : UnityAssetViewer,
      cabTrace v.serialized_file_count cabs
        = intRange v.serialized_file_count
            ((processCabs v u cabs).1).serialized_file_count ∧
      v.serialized_file_count ≤ ((processCabs v u cabs).1).serialized_file_count ∧
      ((processCabs v u cabs).2 = Except.ok () ↔ cabsOk cabs = true) := by
  induction cabs with
  | nil =>
    intro v
    exact ⟨(intRange_self _).symm, le_refl _, by simp [processCabs, cabsOk]⟩
  | cons cab rest ih =>
    intro v
    obtain ⟨p, content⟩ := cab
    cases content with
    | extractErr =>
      refine ⟨?_, ?_, ?_⟩
      · exact (intRange_self _).symm
      · exact le_refl _
      · simp [processCabs, processCab, cabsOk]
    | parseErr =>
      refine ⟨?_, ?_, ?_⟩
      · show [v.serialized_file_count]
          = intRange v.serialized_file_count (v.serialized_file_count + 1)
        rw [intRange_cons _ _ (by omega), intRange_self]
      · show v.serialized_file_count ≤ v.serialized_file_count + 1
        omega
      · simp [processCabs, processCab, cabsOk]
    | table d =>
      have hcount : (processCab v u (p, CabContent.table d)).1.serialized_file_count
          = v.serialized_file_count + 1 := by
        simp [processCab, processManifest_serialized_file_count]
      have hred : processCabs v u ((p, CabContent.table d) :: rest)
          = processCabs (processCab v u (p, CabContent.table d)).1 u rest := rfl
      have h1 := ih (processCab v u (p, CabContent.table d)).1
      rw [hcount] at h1
      refine ⟨?_, ?_, ?_⟩
      · show v.serialized_file_count :: cabTrace (v.serialized_file_count + 1) rest
          = intRange v.serialized_file_count
              ((processCabs v u ((p, CabContent.table d) :: rest)).1).serialized_file_count
        rw [hred, h1.1]
        have hle := h1.2.1
        exact (intRange_cons _ _ (by omega)).symm
      · rw [hred]
        have hle := h1.2.1
        omega
      · rw [hred]
        simpa [cabsOk] using h1.2.2

theorem read_dir_trace (entries : List DirEntry) :
    ∀ v : UnityAssetViewer,
      dirATrace v.unity_fs_count entries
        = intRange v.unity_fs_count ((v.read_dir entries).1).unity_fs_count ∧
      dirTTrace v.serialized_file_count entries
        = intRange v.serialized_file_count
            ((v.read_dir entries).1).serialized_file_count ∧
      v.unity_fs_count ≤ ((v.read_dir entries).1).unity_fs_count ∧
      v.serialized_file_count ≤ ((v.read_dir entries).1).serialized_file_count := by
  induction entries with
  | nil =>
    intro v
    exact ⟨(intRange_self _).symm, (intRange_self _).symm, le_refl _, le_refl _⟩
  | cons e rest ih =>
    intro v
    cases e with
    | errEntry => exact ih v
    | noFileType => exact ih v
    | notFile => exact ih v
    | file c =>
      cases c with
      | openErr =>
        exact ⟨(intRange_self _).symm, (intRange_self _).symm, le_refl _, le_refl _⟩
      | fsParseErr =>
        exact ⟨(intRange_self _).symm, (intRange_self _).symm, le_refl _, le_refl _⟩
      | ok fs =>
        have hcab := cabTrace_spec v.unity_fs_count fs.cabs
          { v with unity_fs_count := v.unity_fs_count + 1 }
        have hunity := processCabs_unity_frame v.unity_fs_count fs.cabs
          { v with unity_fs_count := v.unity_fs_count + 1 }
        rcases hc : processCabs { v with unity_fs_count := v.unity_fs_count + 1 }
            v.unity_fs_count fs.cabs with ⟨v2, r⟩
        rw [hc] at hcab hunity
        dsimp only at hcab hunity
        cases r with
        | ok u =>
          cases u
          have hok : cabsOk fs.cabs = true := hcab.2.2.mp rfl
          set w : UnityAssetViewer :=
            { v2 with unity_fs_map := listInsert v2.unity_fs_map v.unity_fs_count fs }
            with hw
          have hred : v.read_dir (DirEntry.file (FileContent.ok fs) :: rest)
              = w.read_dir rest := by
            simp only [UnityAssetViewer.read_dir, processEntry, hc]
          have hwu : w.unity_fs_count = v.unity_fs_count + 1 := by
            rw [hw]
            exact hunity.2
          have hws : w.serialized_file_count = v2.serialized_file_count := by
            rw [hw]
          have ihh := ih w
          rw [hwu, hws] at ihh
          refine ⟨?_, ?_, ?_, ?_⟩
          · show (if cabsOk fs.cabs then
                v.unity_fs_count :: dirATrace (v.unity_fs_count + 1) rest
              else [v.unity_fs_count]) = _
            rw [if_pos hok, hred, ihh.1]
            have hle := ihh.2.2.1
            exact (intRange_cons _ _ (by omega)).symm
          · show (if cabsOk fs.cabs then
                cabTrace v.serialized_file_count fs.cabs
                  ++ dirTTrace
                      (v.serialized_file_count
                        + (cabTrace v.serialized_file_count fs.cabs).length) rest
              else cabTrace v.serialized_file_count fs.cabs) = _
            rw [if_pos hok, hred, hcab.1, intRange_length]
            have hle := hcab.2.1
            have harg : v.serialized_file_count
                + ((v2.serialized_file_count - v.serialized_file_count).toNat : Int)
                = v2.serialized_file_count := by omega
            rw [harg, ihh.2.1]
            exact intRange_append _ _ _ hcab.2.1 ihh.2.2.2
          · rw [hred]
            have h1 := ihh.2.2.1
            omega
          · rw [hred]
            have h1 := ihh.2.2.2
            have h2 := hcab.2.1
            omega
        | error e' =>
          have hbad : cabsOk fs.cabs = false := by
            cases hcb : cabsOk fs.cabs
            · rfl
            · exact absurd (hcab.2.2.mpr hcb) (by simp)
          have hred : v.read_dir (DirEntry.file (FileContent.ok fs) :: rest)
              = (v2, Except.error e') := by
            simp only [UnityAssetViewer.read_dir, processEntry, hc]
          refine ⟨?_, ?_, ?_, ?_⟩
          · show (if cabsOk fs.cabs then
                v.unity_fs_count :: dirATrace (v.unity_fs_count + 1) rest
              else [v.unity_fs_count]) = _
            rw [if_neg (by simp [hbad]), hred]
            dsimp only
            rw [hunity.2, intRange_cons _ _ (by omega), intRange_self]
          · show (if cabsOk fs.cabs then
                cabTrace v.serialized_file_count fs.cabs
                  ++ dirTTrace
                      (v.serialized_file_count
                        + (cabTrace v.serialized_file_count fs.cabs).length) rest
              else cabTrace v.serialized_file_count fs.cabs) = _
            rw [if_neg (by simp [hbad]), hred]
            exact hcab.1
          · rw [hred]
            dsimp only
            rw [hunity.2]
            omega
          · rw [hred]
            exact hcab.2.1

theorem ingest_ids_spec (dirs : List (List DirEntry)) :
    ∀ v : UnityAssetViewer,
      List.Pairwise (· < ·) (ingestArchiveIds v dirs) ∧
      (∀ x ∈ ingestArchiveIds v dirs, v.unity_fs_count ≤ x) ∧
      List.Pairwise (· < ·) (ingestTableIds v dirs) ∧
      (∀ x ∈ ingestTableIds v dirs, v.serialized_file_count ≤ x) := by
  induction dirs with
  | nil =>
    intro v
    refine ⟨List.Pairwise.nil, ?_, List.Pairwise.nil, ?_⟩
    · intro x hx
      simp [ingestArchiveIds] at hx
    · intro x hx
      simp [ingestTableIds] at hx
  | cons d ds ih =>
    intro v
    have ht := read_dir_trace d v
    have ihh := ih ((v.read_dir d).1)
    refine ⟨?_, ?_, ?_, ?_⟩
    · show List.Pairwise (· < ·)
        (dirATrace v.unity_fs_count d ++ ingestArchiveIds ((v.read_dir d).1) ds)
      refine List.pairwise_append.mpr ⟨?_, ihh.1, ?_⟩
      · rw [ht.1]
        exact intRange_pairwise _ _
      · intro x hx y hy
        rw [ht.1] at hx
        have hxb := mem_intRange _ _ x hx
        have hyb := ihh.2.1 y hy
        omega
    · intro x hx
      rcases List.mem_append.mp hx with hx1 | hx2
      · rw [ht.1] at hx1
        exact (mem_intRange _ _ x hx1).1
      · have := ihh.2.1 x hx2
        have hle := ht.2.2.1
        omega
    · show List.Pairwise (· < ·)
        (dirTTrace v.serialized_file_count d ++ ingestTableIds ((v.read_dir d).1) ds)
      refine List.pairwise_append.mpr ⟨?_, ihh.2.2.1, ?_⟩
      · rw [ht.2.1]
        exact intRange_pairwise _ _
      · intro x hx y hy
        rw [ht.2.1] at hx
        have hxb := mem_intRange _ _ x hx
        have hyb := ihh.2.2.2 y hy
        omega
    · intro x hx
      rcases List.mem_append.mp hx with hx1 | hx2
      · rw [ht.2.1] at hx1
        exact (mem_intRange _ _ x hx1).1
      · have := ihh.2.2.2 x hx2
        have hle := ht.2.2.2
        omega

/-- C1: across any sequence of read_dir calls on one engine instance started
fresh, the archive (unity_fs) identifiers taken are strictly increasing in
ingestion order - hence pairwise distinct - and so are the table (serialized
file) identifiers; and the two identifier counters never decrease across any
single read_dir call from any state, so they are never reset. -/
theorem ingestion_identifiers_strictly_increasing :
    ∀ dirs : List (List DirEntry),
      List.Pairwise (· < ·) (ingestArchiveIds UnityAssetViewer.new dirs) ∧
      List.Pairwise (· < ·) (ingestTableIds UnityAssetViewer.new dirs) ∧
      ∀ (v : UnityAssetViewer) (d : List DirEntry),
        v.unity_fs_count ≤ ((v.read_dir d).1).unity_fs_count ∧
        v.serialized_file_count ≤ ((v.read_dir d).1).serialized_file_count := by
  intro dirs
  have h := ingest_ids_spec dirs UnityAssetViewer.new
  exact ⟨h.1, h.2.2.1,
    fun v d => ⟨(read_dir_trace d v).2.2.1, (read_dir_trace d v).2.2.2⟩⟩

end IoUnity
